import Mathlib

/-!
Verification of the natural-language-to-SQL translation and sanitization
pipeline of a Telegram analytics bot (src/nlp.py, src/bot.py, src/config.py).

The sanitizer `sanitize_sql` is embedded over `List Char`, step by step in the
order of the Python source:
  1. `str.strip()`                                      -> `pyStrip`
  2. `re.sub(r"^фенс(?:sql)?\s*", "", s, IGNORECASE)`   -> `unfenceLead`
  3. `re.sub(r"\s*фенс$", "", s)`                       -> `unfenceTail`
  4. backtick unwrapping (`startswith`/`endswith`)      -> `unbacktick`
  5. `re.sub(r"^(SQL|Ответ)\s*:\s*", "", s, I).strip()` -> `pyStrip ∘ dropLabel`
  6. first-statement truncation on `";"`                -> `takeFirstStmt`
  7. `re.sub(r"creator_id\s*=\s*'([^']+)'", repl, s, I)`-> `rewriteCreator`
("фенс" above stands for the three-backtick code fence, which cannot be
written in this comment block.)

Modelling notes, each justified where the definition is declared:
* whitespace is the ASCII class (space, tab, LF, CR, VT, FF); the inputs in
  play are ASCII/Cyrillic text where Python's Unicode `\s` and `str.strip`
  agree with it;
* in step 3 the Python `$` anchor is end-of-string, because the input at that
  point never ends in whitespace (steps 1-2 only remove a prefix of a
  stripped string), so the leftmost match of the pattern is the trailing
  fence plus the whitespace run before it;
* `UUID_RE.match` keeps Python's `$` semantics: it also accepts a value with
  exactly one trailing newline (`uuidMatchPy`), which differs from the
  canonical 8-4-4-4-12 shape (`uuidCanonical`).

The LLM dispatch `query_to_sql` and the per-message handler `handle` are
embedded with the outbound call abstracted as an oracle function and the
database as a function returning `Except`; the request records carry exactly
the parameters the source passes to each provider.
-/

/-- ASCII whitespace, the class Python's `str.strip` and `\s` use on the
ASCII range (space, tab, newline, carriage return, vertical tab, form feed). -/
def isSp (c : Char) : Bool :=
  c = ' ' || c = '\t' || c = '\n' || c = '\r' || c = '\x0b' || c = '\x0c'

/-- Python `str.lower` restricted to ASCII letters and the Cyrillic range
А-Я (both map by adding 32 to the code point), the only letters the
case-insensitive patterns of nlp.py contain. -/
def lowerChar (c : Char) : Char :=
  if 'A' ≤ c && c ≤ 'Z' then Char.ofNat (c.toNat + 32)
  else if 'А' ≤ c && c ≤ 'Я' then Char.ofNat (c.toNat + 32)
  else c

/-- Left strip: drop the leading whitespace run. -/
def lstrip (l : List Char) : List Char := l.dropWhile isSp

/-- Right strip: drop the trailing whitespace run. -/
def rstrip (l : List Char) : List Char := (l.reverse.dropWhile isSp).reverse

/-- Python `str.strip()`: both ends. -/
def pyStrip (l : List Char) : List Char := rstrip (lstrip l)

/-- Eat a literal pattern case-insensitively from the front: `eatCI pat l`
returns the remainder of `l` when the first `pat.length` characters of `l`
lower to `pat`, else `none`.  This is the engine for the case-insensitive
literal pieces of nlp.py's anchored regexes. -/
def eatCI : List Char → List Char → Option (List Char)
  | [], l => some l
  | _ :: _, [] => none
  | p :: ps, c :: l => if lowerChar c = p then eatCI ps l else none

/-- The optional `sql` tag of the opening code fence (lower case; the regex
is case-insensitive). -/
def sqlTag : List Char := ['s', 'q', 'l']

/-- Step 2 of `sanitize_sql`: strip a leading three-backtick fence, an
optional case-insensitive `sql` tag, and the whitespace after them
(`re.sub` with a `^`-anchored pattern fires at most once, at position 0). -/
def unfenceLead (l : List Char) : List Char :=
  match l with
  | '`' :: '`' :: '`' :: r =>
    match eatCI sqlTag r with
    | some r2 => r2.dropWhile isSp
    | none => r.dropWhile isSp
  | _ => l

/-- Step 3 of `sanitize_sql`: remove a trailing three-backtick fence and the
whitespace run before it.  Faithful to the Python pattern on every input
whose last character is not whitespace — true at the call site, where the
string is `pyStrip`ped and step 2 removed only a prefix — since then `$` can
only match at the very end and the leftmost match is the whitespace run
followed by the final three backticks. -/
def unfenceTail (l : List Char) : List Char :=
  match l.reverse with
  | '`' :: '`' :: '`' :: r => (r.dropWhile isSp).reverse
  | _ => l

/-- Step 4 of `sanitize_sql`: if the string starts and ends with a single
backtick, drop one character from each end (Python `s[1:-1]`, which is empty
for the one-character string made of a backtick alone) and strip. -/
def unbacktick (l : List Char) : List Char :=
  if l.head? = some '`' && l.getLast? = some '`' then
    pyStrip (l.drop 1).dropLast
  else l

/-- The label `SQL` in lower case. -/
def sqlLabel : List Char := ['s', 'q', 'l']

/-- The label `Ответ` in lower case. -/
def otvetLabel : List Char := ['о', 'т', 'в', 'е', 'т']

/-- One alternative of the label pattern `^(SQL|Ответ)\s*:\s*`: the literal
case-insensitively, optional whitespace, a colon, optional whitespace. -/
def tryLabel (pat l : List Char) : Option (List Char) :=
  match eatCI pat l with
  | none => none
  | some r =>
    match r.dropWhile isSp with
    | ':' :: r2 => some (r2.dropWhile isSp)
    | _ => none

/-- Step 5 of `sanitize_sql` before its final strip: remove one leading
`SQL:` or `Ответ:` label, case-insensitively, with optional whitespace
around the colon.  The regex alternation tries `SQL` first; the alternatives
start with distinct letters, so the order cannot matter. -/
def dropLabel (l : List Char) : List Char :=
  match tryLabel sqlLabel l with
  | some r => r
  | none =>
    match tryLabel otvetLabel l with
    | some r => r
    | none => l

/-- Step 6 of `sanitize_sql`: if a `;` occurs, split at the first one, strip
the part before it, and — only when that part is non-empty — keep it with a
single `;` appended.  When the stripped part is empty the Python code leaves
the string unchanged (the `if first:` guard). -/
def takeFirstStmt (l : List Char) : List Char :=
  if l.contains ';' then
    let first := pyStrip (l.takeWhile (fun c => c != ';'))
    if first.isEmpty then l else first ++ [';']
  else l

/-- One hexadecimal digit, as the character class `[0-9a-fA-F]`. -/
def isHexDigit (c : Char) : Bool :=
  ('0' ≤ c && c ≤ '9') || ('a' ≤ c && c ≤ 'f') || ('A' ≤ c && c ≤ 'F')

/-- Consume exactly `n` hexadecimal digits. -/
def eatHex : Nat → List Char → Option (List Char)
  | 0, l => some l
  | _ + 1, [] => none
  | n + 1, c :: l => if isHexDigit c then eatHex n l else none

/-- Consume a hyphen. -/
def eatDash : List Char → Option (List Char)
  | '-' :: l => some l
  | _ => none

/-- The canonical UUID text shape of the spec: 32 hexadecimal digits grouped
8-4-4-4-12 with hyphens, and nothing else. -/
def uuidCanonical (l : List Char) : Bool :=
  match eatHex 8 l >>= eatDash >>= eatHex 4 >>= eatDash >>= eatHex 4
      >>= eatDash >>= eatHex 4 >>= eatDash >>= eatHex 12 with
  | some [] => true
  | _ => false

/-- What `UUID_RE.match(val)` (pattern `^…$`, nlp.py line 24) accepts: in
Python `$` also matches just before one newline at the very end of the
string, so a canonical UUID followed by a single trailing `'\n'` passes
too. -/
def uuidMatchPy (l : List Char) : Bool :=
  uuidCanonical l ||
    (match l.reverse with
     | '\n' :: r => uuidCanonical r.reverse
     | _ => false)

/-- The literal `creator_id` in lower case. -/
def creatorPat : List Char := ['c', 'r', 'e', 'a', 't', 'o', 'r', '_', 'i', 'd']

/-- Try to match `creator_id\s*=\s*'([^']+)'` (case-insensitive) at the head
of `l`.  Returns the captured value and the remainder after the closing
quote.  The greedy `[^']+` with a mandatory closing quote is deterministic:
the value is the maximal quote-free run, which must be non-empty and be
followed by a quote. -/
def matchCreator (l : List Char) : Option (List Char × List Char) :=
  match eatCI creatorPat l with
  | none => none
  | some l1 =>
    match l1.dropWhile isSp with
    | [] => none
    | c2 :: l3 =>
      if c2 = '=' then
        match l3.dropWhile isSp with
        | [] => none
        | c4 :: l5 =>
          if c4 = '\'' then
            match l5.drop (l5.takeWhile (fun c => c != '\'')).length with
            | [] => none
            | c6 :: rest =>
              if c6 = '\'' then
                if (l5.takeWhile (fun c => c != '\'')).isEmpty then none
                else some (l5.takeWhile (fun c => c != '\''), rest)
              else none
          else none
      else none

/-- The replacement `repl_creator` emits when the value passes `UUID_RE`:
normalized identifier equality. -/
def replKeep (val : List Char) : List Char :=
  "creator_id = '".toList ++ val ++ ['\'']

/-- The replacement `repl_creator` emits when the value fails `UUID_RE`:
text comparison of the identifier. -/
def replText (val : List Char) : List Char :=
  "creator_id::text = '".toList ++ val ++ ['\'']

/-- One fuelled pass of the global substitution
`re.sub(r"creator_id\s*=\s*'([^']+)'", repl_creator, sql, IGNORECASE)`.
Scans left to right; at each position either the pattern matches — the
replacement is emitted and scanning resumes after the match — or one
character is copied.  Every step consumes at least one input character, so
fuel equal to the input length is never exhausted; the fuel only makes the
recursion structural. -/
def rewriteFuel : Nat → List Char → List Char
  | 0, l => l
  | n + 1, l =>
    match matchCreator l with
    | some (val, rest) =>
      (if uuidMatchPy val then replKeep val else replText val) ++ rewriteFuel n rest
    | none =>
      match l with
      | [] => []
      | c :: l' => c :: rewriteFuel n l'

/-- Step 7 of `sanitize_sql`: the substitution pass with enough fuel. -/
def rewriteCreator (l : List Char) : List Char := rewriteFuel l.length l

/-- Stages 1-5 of `sanitize_sql`: everything before the first-statement
truncation. -/
def preStmt (l : List Char) : List Char :=
  pyStrip (dropLabel (unbacktick (unfenceTail (unfenceLead (pyStrip l)))))

/-- The whole sanitizer on character lists. -/
def sanitizeL (l : List Char) : List Char :=
  rewriteCreator (takeFirstStmt (preStmt l))

/-- `sanitize_sql` of nlp.py lines 26-55. -/
def sanitize_sql (s : String) : String := String.mk (sanitizeL s.toList)

/-- The three-backtick code fence. -/
def fence3 : List Char := ['`', '`', '`']

/-- The fixed system instruction `SCHEMA_DESCRIPTION` of nlp.py
(lines 58-108), transcribed verbatim. -/
def SCHEMA_DESCRIPTION : String :=
  "
У тебя есть база данных PostgreSQL с двумя таблицами.

ВАЖНО:
- id, creator_id и video_id — UUID (строки вида xxxxxxxx-xxxx-xxxx-xxxx-xxxxxxxxxxxx).
- Если в вопросе указан id как число (например \"42\"), трактуй это как строку: creator_id = '42'.
- Отвечай ТОЛЬКО SQL‑запросом. Никаких пояснений, списков, markdown, ``` или `...`.

Таблица videos (итоговая статистика по ролику):
  id — UUID, идентификатор видео (первичный ключ)
  creator_id — UUID, идентификатор создателя
  video_created_at — TIMESTAMPTZ, время публикации видео
  views_count — INTEGER, итоговое число просмотров
  likes_count — INTEGER, итоговое число лайков
  comments_count — INTEGER, итоговое число комментариев
  reports_count — INTEGER, итоговое число жалоб
  created_at — TIMESTAMPTZ, время создания записи
  updated_at — TIMESTAMPTZ, время обновления записи

Таблица video_snapshots (почасовые замеры по ролику):
  id — UUID, идентификатор снапшота (первичный ключ)
  video_id — UUID, ссылка на videos.id
  views_count — INTEGER, текущее число просмотров на момент замера
  likes_count — INTEGER, текущее число лайков
  comments_count — INTEGER, текущее число комментариев
  reports_count — INTEGER, текущее число жалоб
  delta_views_count — INTEGER, прирост просмотров с предыдущего снапшота
  delta_likes_count — INTEGER, прирост лайков
  delta_comments_count — INTEGER, прирост комментариев
  delta_reports_count — INTEGER, прирост жалоб
  created_at — TIMESTAMPTZ, время замера (раз в час)
  updated_at — TIMESTAMPTZ, время обновления записи

Запрос должен возвращать ОДНО числовое значение.

Примеры (без кавычек ` и без markdown):

1) Сколько всего видео есть в системе?
SELECT COUNT(*) FROM videos;

2) Сколько видео у креатора с id 42 вышло с 1 ноября 2025 по 5 ноября 2025 включительно?
SELECT COUNT(*) FROM videos
WHERE creator_id = '42'
  AND video_created_at >= '2025-11-01'
  AND video_created_at <= '2025-11-05 23:59:59';

3) На сколько просмотров в сумме выросли все видео 28 ноября 2025?
SELECT COALESCE(SUM(delta_views_count),0)
FROM video_snapshots
WHERE DATE(created_at) = '2025-11-28';
"

/-- The configuration record of config.py (class `Settings`): credentials and
selectors read once at startup.  Optional fields are the GigaChat bundle. -/
structure Settings where
  bot_token : String
  database_url : String
  openai_api_key : String
  llm_model : String
  llm_provider : String
  gigachat_credentials : Option String
  gigachat_scope : Option String
  gigachat_model : Option String
  gigachat_ca_bundle_file : Option String
  gigachat_verify_ssl_certs : Option Bool
deriving DecidableEq

/-- The parameter record of the outbound openai `ChatCompletion.acreate`
call (nlp.py lines 131-136).  The source passes `temperature=0.0` and
`max_tokens=200`; the float literal is modelled as the rational 0. -/
structure OpenAICall where
  model : String
  messages : List (String × String)
  temperature : Option ℚ
  max_tokens : Option Nat
deriving DecidableEq

/-- The `Chat` payload the gigachat branch constructs (nlp.py lines
141-146): only `messages` is passed; the temperature and output-length
fields of the payload are left unset (`none`). -/
structure GigaChatPayload where
  messages : List (String × String)
  temperature : Option ℚ := none
  max_tokens : Option Nat := none
deriving DecidableEq

/-- The ordered message pair both providers receive: the fixed system
instruction and the stripped user question (nlp.py lines 127-130 and
142-145). -/
def mkMessages (question : String) : List (String × String) :=
  [("system", SCHEMA_DESCRIPTION), ("user", String.mk (pyStrip question.toList))]

/-- The openai request as built by `query_to_sql`. -/
def mkOpenAICall (st : Settings) (question : String) : OpenAICall :=
  { model := st.llm_model
    messages := mkMessages question
    temperature := some 0
    max_tokens := some 200 }

/-- The gigachat request as built by `query_to_sql`. -/
def mkGigaChatPayload (question : String) : GigaChatPayload :=
  { messages := mkMessages question }

/-- One outbound provider call. -/
inductive LlmCall where
  | openaiCall (req : OpenAICall)
  | gigaCall (chat : GigaChatPayload)
deriving DecidableEq

/-- The normalized provider selector `settings.llm_provider.lower().strip()`
(nlp.py line 122). -/
def providerOf (st : Settings) : String :=
  String.mk (pyStrip (st.llm_provider.toList.map lowerChar))

/-- `query_to_sql` of nlp.py lines 111-166, with the network abstracted: the
oracle stands for the provider's completion endpoint (`Except.error` is a
raised transport/auth exception).  Returns the result — the sanitized
completion, or the propagated failure, or the `Unknown LLM provider` error
of line 166 — together with the trace of outbound calls made. -/
def query_to_sql (st : Settings) (oracle : LlmCall → Except String String)
    (question : String) : Except String String × List LlmCall :=
  if providerOf st = "openai" then
    match oracle (LlmCall.openaiCall (mkOpenAICall st question)) with
    | Except.ok raw => (Except.ok (sanitize_sql raw),
        [LlmCall.openaiCall (mkOpenAICall st question)])
    | Except.error e => (Except.error e,
        [LlmCall.openaiCall (mkOpenAICall st question)])
  else if providerOf st = "gigachat" then
    match oracle (LlmCall.gigaCall (mkGigaChatPayload question)) with
    | Except.ok raw => (Except.ok (sanitize_sql raw),
        [LlmCall.gigaCall (mkGigaChatPayload question)])
    | Except.error e => (Except.error e,
        [LlmCall.gigaCall (mkGigaChatPayload question)])
  else
    (Except.error ("Unknown LLM provider: " ++ st.llm_provider), [])

/-- The fixed reply to a blank message (bot.py line 49). -/
def emptyMsg : String := "Пустой запрос. Напиши вопрос текстом."

/-- The fixed apology reply of the per-question exception handler
(bot.py lines 63-66). -/
def apologyMsg : String :=
  "Ошибка при обработке запроса.\nПопробуй переформулировать вопрос (или проверь, что данные загружены)."

/-- `str(result if result is not None else 0)` (bot.py line 59): the
absence-of-result marker renders as the string form of zero. -/
def renderVal (r : Option Int) : String :=
  match r with
  | some v => toString v
  | none => toString (0 : Int)

/-- What one run of the message handler produced: the reply text, the SQL
handed to the executor (when the pipeline reached it), and the logged
(question, exception) pair (when the except-branch ran). -/
structure HandleOut where
  reply : String
  executed : Option String
  logged : Option (String × String)
deriving DecidableEq

/-- The `handle` message handler of bot.py lines 45-66, with the transport
abstracted away: `msgText` is `message.text`, `oracle` the LLM endpoint and
`db` the `fetchval` executor (`Except.error` is a raised exception).  The
single try/except boundary catches a failure from either awaited call, logs
the question with the exception, and answers with the fixed apology. -/
def handle (st : Settings) (oracle : LlmCall → Except String String)
    (db : String → Except String (Option Int)) (msgText : Option String) :
    HandleOut :=
  let question := String.mk (pyStrip (msgText.getD "").toList)
  if question = "" then
    { reply := emptyMsg, executed := none, logged := none }
  else
    match (query_to_sql st oracle question).1 with
    | Except.error e =>
      { reply := apologyMsg, executed := none, logged := some (question, e) }
    | Except.ok sql0 =>
      match db (sanitize_sql sql0) with
      | Except.error e =>
        { reply := apologyMsg, executed := some (sanitize_sql sql0),
          logged := some (question, e) }
      | Except.ok r =>
        { reply := renderVal r, executed := some (sanitize_sql sql0),
          logged := none }

/-- Concrete settings with the openai provider selected, for witnesses. -/
def stOpenai : Settings :=
  { bot_token := "t", database_url := "d", openai_api_key := "k"
    llm_model := "gpt-3.5-turbo", llm_provider := "openai"
    gigachat_credentials := none, gigachat_scope := none, gigachat_model := none
    gigachat_ca_bundle_file := none, gigachat_verify_ssl_certs := none }

/-- Concrete settings with a mixed-case, padded gigachat selector. -/
def stGiga : Settings :=
  { bot_token := "t", database_url := "d", openai_api_key := "k"
    llm_model := "gpt-3.5-turbo", llm_provider := "  GigaChat "
    gigachat_credentials := some "c", gigachat_scope := none, gigachat_model := none
    gigachat_ca_bundle_file := none, gigachat_verify_ssl_certs := none }

/-- Concrete settings with an unsupported provider selector. -/
def stBad : Settings :=
  { bot_token := "t", database_url := "d", openai_api_key := "k"
    llm_model := "gpt-3.5-turbo", llm_provider := "claude"
    gigachat_credentials := none, gigachat_scope := none, gigachat_model := none
    gigachat_ca_bundle_file := none, gigachat_verify_ssl_certs := none }

/-- An oracle that always completes with one clean statement. -/
def okOracle : LlmCall → Except String String :=
  fun _ => Except.ok "SELECT COUNT(*) FROM videos;"

/-- An oracle whose call raises a transport error. -/
def errOracle : LlmCall → Except String String :=
  fun _ => Except.error "connection refused"

/-- An executor that finds no row (`fetchval` returns `None`). -/
def dbNone : String → Except String (Option Int) :=
  fun _ => Except.ok none

/-- An executor that returns the scalar 42. -/
def dbVal : String → Except String (Option Int) :=
  fun _ => Except.ok (some 42)

/-- An executor whose call raises a database error. -/
def dbErr : String → Except String (Option Int) :=
  fun _ => Except.error "syntax error at or near"

instance {ε α : Type} [DecidableEq ε] [DecidableEq α] :
    DecidableEq (Except ε α) := fun a b =>
  match a, b with
  | Except.ok x, Except.ok y =>
    if h : x = y then isTrue (by rw [h])
    else isFalse (fun hc => h (by injection hc))
  | Except.error x, Except.error y =>
    if h : x = y then isTrue (by rw [h])
    else isFalse (fun hc => h (by injection hc))
  | Except.ok _, Except.error _ => isFalse (fun hc => Except.noConfusion hc)
  | Except.error _, Except.ok _ => isFalse (fun hc => Except.noConfusion hc)

theorem eatCI_dest : ∀ (pat l r : List Char), eatCI pat l = some r →
    ∃ cs, l = cs ++ r ∧ cs.map lowerChar = pat := by
  intro pat
  induction pat with
  | nil =>
    intro l r h
    simp only [eatCI, Option.some.injEq] at h
    exact ⟨[], by simp [h], rfl⟩
  | cons p ps ih =>
    intro l r h
    cases l with
    | nil => simp [eatCI] at h
    | cons c l' =>
      simp only [eatCI] at h
      split at h
      · rename_i hc
        obtain ⟨cs, hl, hm⟩ := ih l' r h
        exact ⟨c :: cs, by simp [hl], by simp [hm, hc]⟩
      · exact absurd h (by simp)

theorem eatCI_build : ∀ (cs pat r : List Char), cs.map lowerChar = pat →
    eatCI pat (cs ++ r) = some r := by
  intro cs
  induction cs with
  | nil =>
    intro pat r h
    simp only [List.map_nil] at h
    subst h
    simp [eatCI]
  | cons c cs' ih =>
    intro pat r h
    simp only [List.map_cons] at h
    subst h
    simpa [eatCI] using ih _ r rfl

theorem drop_length_takeWhile (p : Char → Bool) (l : List Char) :
    l.drop (l.takeWhile p).length = l.dropWhile p := by
  have := List.drop_left (l.takeWhile p) (l.dropWhile p)
  rwa [List.takeWhile_append_dropWhile] at this

/-- Inversion of the `creator_id` matcher: a successful match decomposes the
input into the case-insensitive literal, whitespace, `=`, whitespace, and the
quoted non-empty quote-free value, with the remainder after the closing
quote. -/
theorem matchCreator_dest {l val rest : List Char}
    (h : matchCreator l = some (val, rest)) :
    ∃ cs w1 w2, l = cs ++ (w1 ++ '=' :: (w2 ++ '\'' :: (val ++ '\'' :: rest))) ∧
      cs.map lowerChar = creatorPat ∧ (∀ c ∈ w1, isSp c = true) ∧
      (∀ c ∈ w2, isSp c = true) ∧ val ≠ [] ∧ ∀ c ∈ val, c ≠ '\'' := by
  unfold matchCreator at h
  split at h
  · exact absurd h (by simp)
  · rename_i l1 h1
    obtain ⟨cs, hlcs, hcs⟩ := eatCI_dest _ _ _ h1
    split at h
    · exact absurd h (by simp)
    · rename_i c2 l3 h2
      obtain ⟨w1, hw1m, hl1⟩ : ∃ w1, (∀ c ∈ w1, isSp c = true) ∧ l1 = w1 ++ c2 :: l3 :=
        ⟨l1.takeWhile isSp, fun c hc => List.mem_takeWhile_imp hc, by
          rw [← h2, List.takeWhile_append_dropWhile]⟩
      split at h
      · rename_i he
        subst he
        split at h
        · exact absurd h (by simp)
        · rename_i c4 l5 h3
          obtain ⟨w2, hw2m, hl3⟩ : ∃ w2, (∀ c ∈ w2, isSp c = true) ∧ l3 = w2 ++ c4 :: l5 :=
            ⟨l3.takeWhile isSp, fun c hc => List.mem_takeWhile_imp hc, by
              rw [← h3, List.takeWhile_append_dropWhile]⟩
          split at h
          · rename_i hq
            subst hq
            split at h
            · exact absurd h (by simp)
            · rename_i c6 rest' h4
              split at h
              · rename_i hq2
                subst hq2
                split at h
                · exact absurd h (by simp)
                · rename_i hemp
                  rw [Option.some.injEq, Prod.mk.injEq] at h
                  obtain ⟨hv, hr⟩ := h
                  rw [drop_length_takeWhile] at h4
                  have hl5 : l5 = val ++ '\'' :: rest := by
                    rw [← List.takeWhile_append_dropWhile (fun c => c != '\'') l5, h4,
                      hv, hr]
                  refine ⟨cs, w1, w2, ?_, hcs, hw1m, hw2m, ?_, ?_⟩
                  · rw [hlcs, hl1, hl3, hl5]
                  · intro hnil
                    rw [hv, hnil] at hemp
                    exact hemp rfl
                  · intro c hc
                    rw [← hv] at hc
                    have := List.mem_takeWhile_imp hc
                    simpa using this
              · exact absurd h (by simp)
          · exact absurd h (by simp)
      · exact absurd h (by simp)

theorem matchCreator_rest_length {l val rest : List Char}
    (h : matchCreator l = some (val, rest)) : rest.length < l.length := by
  obtain ⟨cs, w1, w2, hl, hcs, -, -, -, -⟩ := matchCreator_dest h
  have hcslen : cs.length = 10 := by
    have := congrArg List.length hcs
    simpa [creatorPat] using this
  rw [hl]
  simp [hcslen]
  omega

theorem rewriteFuel_congr : ∀ (n m : Nat) (l : List Char), l.length ≤ n →
    l.length ≤ m → rewriteFuel n l = rewriteFuel m l := by
  intro n
  induction n with
  | zero =>
    intro m l hn _
    have : l = [] := List.length_eq_zero.mp (Nat.le_zero.mp hn)
    subst this
    cases m with
    | zero => rfl
    | succ k => simp [rewriteFuel, matchCreator, eatCI, creatorPat]
  | succ k ih =>
    intro m l hn hm
    cases l with
    | nil =>
      cases m with
      | zero => simp [rewriteFuel, matchCreator, eatCI, creatorPat]
      | succ k' => simp [rewriteFuel, matchCreator, eatCI, creatorPat]
    | cons c l' =>
      cases m with
      | zero => simp at hm
      | succ k' =>
        cases hmc : matchCreator (c :: l') with
        | some p =>
          obtain ⟨val, rest⟩ := p
          have hlt := matchCreator_rest_length hmc
          simp only [List.length_cons] at hn hm hlt
          simp only [rewriteFuel, hmc]
          rw [ih k' rest (by omega) (by omega)]
        | none =>
          simp only [List.length_cons] at hn hm
          simp only [rewriteFuel, hmc]
          rw [ih k' l' (by omega) (by omega)]

theorem rewriteCreator_nil : rewriteCreator [] = [] := rfl

theorem rewriteCreator_some {l val rest : List Char}
    (h : matchCreator l = some (val, rest)) :
    rewriteCreator l =
      (if uuidMatchPy val then replKeep val else replText val) ++ rewriteCreator rest := by
  have hlt := matchCreator_rest_length h
  unfold rewriteCreator
  cases hn : l.length with
  | zero => omega
  | succ k =>
    simp only [rewriteFuel, h]
    congr 1
    exact rewriteFuel_congr k rest.length rest (by omega) (Nat.le_refl _)

theorem rewriteCreator_none {c : Char} {l' : List Char}
    (h : matchCreator (c :: l') = none) :
    rewriteCreator (c :: l') = c :: rewriteCreator l' := by
  unfold rewriteCreator
  simp only [List.length_cons, rewriteFuel, h]

theorem eatCI_append_singleton (pat u : List Char) (x : Char)
    (hpat : ∀ p ∈ pat, lowerChar x ≠ p) :
    eatCI pat (u ++ [x]) = (eatCI pat u).map (fun r => r ++ [x]) := by
  induction pat generalizing u with
  | nil => simp [eatCI]
  | cons p ps ih =>
    cases u with
    | nil =>
      have hx : lowerChar x ≠ p := hpat p (by simp)
      simp [eatCI, hx]
    | cons c u' =>
      simp only [List.cons_append, eatCI]
      split
      · exact ih u' (fun q hq => hpat q (by simp [hq]))
      · simp

theorem dropWhile_append_singleton (p : Char → Bool) (u : List Char) (x : Char)
    (hx : p x = false) :
    (u ++ [x]).dropWhile p = u.dropWhile p ++ [x] := by
  rw [List.dropWhile_append]
  split
  · rename_i he
    have : u.dropWhile p = [] := by
      cases hu : u.dropWhile p with
      | nil => rfl
      | cons a b => rw [hu] at he; simp at he
    rw [this]
    simp [List.dropWhile_cons, hx]
  · rfl

theorem takeWhile_full_of_length (p : Char → Bool) (l : List Char)
    (h : (l.takeWhile p).length = l.length) : l.takeWhile p = l := by
  have hpre := List.takeWhile_prefix (l := l) p
  exact List.IsPrefix.eq_of_length hpre h

/-- Appending the statement separator to the input of the `creator_id`
matcher cannot create or destroy a match: the separator can complete no
component of the pattern, so a match of the extended input is a match of the
original with the separator pushed into the remainder. -/
theorem matchCreator_append_semi (u : List Char) :
    matchCreator (u ++ [';']) = (matchCreator u).map (fun p => (p.1, p.2 ++ [';'])) := by
  unfold matchCreator
  rw [eatCI_append_singleton creatorPat u ';' (by decide)]
  cases h1 : eatCI creatorPat u with
  | none => simp
  | some l1 =>
    simp only [Option.map_some']
    rw [dropWhile_append_singleton isSp l1 ';' (by decide)]
    cases h2 : l1.dropWhile isSp with
    | nil => simp
    | cons c2 l3 =>
      simp only [List.cons_append]
      split
      · rw [dropWhile_append_singleton isSp l3 ';' (by decide)]
        cases h3 : l3.dropWhile isSp with
        | nil => simp
        | cons c4 l5 =>
          simp only [List.cons_append]
          split
          · by_cases hlen : (l5.takeWhile (fun c => c != '\'')).length = l5.length
            · have hfull : l5.takeWhile (fun c => c != '\'') = l5 :=
                takeWhile_full_of_length _ _ hlen
              have htw : (l5 ++ [';']).takeWhile (fun c => c != '\'') = l5 ++ [';'] := by
                rw [List.takeWhile_append, if_pos hlen]
                rfl
              rw [htw, List.drop_length, drop_length_takeWhile]
              have hdw : l5.dropWhile (fun c => c != '\'') = [] := by
                have h0 := List.takeWhile_append_dropWhile (fun c => c != '\'') l5
                rw [hfull] at h0
                have h1 := congrArg List.length h0
                simp only [List.length_append] at h1
                exact List.length_eq_zero.mp (by omega)
              rw [hdw]
              simp
            · have htw : (l5 ++ [';']).takeWhile (fun c => c != '\'')
                  = l5.takeWhile (fun c => c != '\'') := by
                rw [List.takeWhile_append, if_neg hlen]
              rw [htw]
              have hle : (l5.takeWhile (fun c => c != '\'')).length ≤ l5.length :=
                (List.takeWhile_prefix _).length_le
              rw [List.drop_append_of_le_length hle, drop_length_takeWhile]
              cases h4 : l5.dropWhile (fun c => c != '\'') with
              | nil =>
                exfalso
                apply hlen
                have h0 := List.takeWhile_append_dropWhile (fun c => c != '\'') l5
                rw [h4, List.append_nil] at h0
                rw [h0]
              | cons c6 restu =>
                simp only [List.cons_append]
                by_cases hc6 : c6 = '\''
                · by_cases hemp : (l5.takeWhile (fun c => c != '\'')).isEmpty
                  · simp [hc6, hemp]
                  · simp [hc6, hemp]
                · simp [hc6]
          · simp
      · simp

/-- Appending the separator commutes with the whole substitution pass. -/
theorem rewriteCreator_append_semi : ∀ (n : Nat) (u : List Char), u.length ≤ n →
    rewriteCreator (u ++ [';']) = rewriteCreator u ++ [';'] := by
  intro n
  induction n with
  | zero =>
    intro u hu
    have : u = [] := List.length_eq_zero.mp (Nat.le_zero.mp hu)
    subst this
    simp only [List.nil_append, rewriteCreator_nil]
    decide
  | succ k ih =>
    intro u hu
    cases hmc : matchCreator u with
    | some p =>
      obtain ⟨val, rest⟩ := p
      have hext : matchCreator (u ++ [';']) = some (val, rest ++ [';']) := by
        rw [matchCreator_append_semi, hmc]
        rfl
      rw [rewriteCreator_some hext, rewriteCreator_some hmc]
      have hlt := matchCreator_rest_length hmc
      rw [ih rest (by omega)]
      simp
    | none =>
      have hext : matchCreator (u ++ [';']) = none := by
        rw [matchCreator_append_semi, hmc]
        rfl
      cases u with
      | nil =>
        simp only [List.nil_append, rewriteCreator_nil]
        rw [show ([';'] : List Char) = ';' :: [] from rfl] at hext ⊢
        rw [rewriteCreator_none hext, rewriteCreator_nil]
      | cons c u' =>
        rw [List.cons_append] at hext ⊢
        rw [rewriteCreator_none hext, rewriteCreator_none hmc]
        simp only [List.length_cons] at hu
        rw [ih u' (by omega)]
        simp

/-- A character absent from the input and from the fixed replacement text is
absent from the output of the substitution pass (the value re-emitted by a
replacement is made of input characters). -/
theorem rewriteCreator_semi_free : ∀ (n : Nat) (l : List Char), l.length ≤ n →
    ';' ∉ l → ';' ∉ rewriteCreator l := by
  intro n
  induction n with
  | zero =>
    intro l hn _
    have : l = [] := List.length_eq_zero.mp (Nat.le_zero.mp hn)
    subst this
    simp [rewriteCreator_nil]
  | succ k ih =>
    intro l hn hl
    cases hmc : matchCreator l with
    | some p =>
      obtain ⟨val, rest⟩ := p
      rw [rewriteCreator_some hmc]
      obtain ⟨cs, w1, w2, hdec, -, -, -, -, -⟩ := matchCreator_dest hmc
      have hval : ';' ∉ val := by
        intro hc
        apply hl
        rw [hdec]
        simp [hc]
      have hrest : ';' ∉ rest := by
        intro hc
        apply hl
        rw [hdec]
        simp [hc]
      have hlt := matchCreator_rest_length hmc
      have hih := ih rest (by omega) hrest
      intro hmem
      rw [List.mem_append] at hmem
      rcases hmem with hmem | hmem
      · split at hmem
        · simp only [replKeep, List.mem_append] at hmem
          rcases hmem with (hmem | hmem) | hmem
          · exact absurd hmem (by decide)
          · exact hval hmem
          · exact absurd hmem (by decide)
        · simp only [replText, List.mem_append] at hmem
          rcases hmem with (hmem | hmem) | hmem
          · exact absurd hmem (by decide)
          · exact hval hmem
          · exact absurd hmem (by decide)
      · exact hih hmem
    | none =>
      cases l with
      | nil => simp [rewriteCreator_nil]
      | cons c l' =>
        rw [rewriteCreator_none hmc]
        simp only [List.length_cons] at hn
        have hc : c ≠ ';' := fun h => hl (h ▸ List.mem_cons_self c l')
        have hl' : ';' ∉ l' := fun h => hl (List.mem_cons_of_mem c h)
        intro hmem
        rcases List.mem_cons.mp hmem with hmem | hmem
        · exact hc hmem.symm
        · exact ih l' (by omega) hl' hmem

theorem mem_pyStrip {c : Char} {l : List Char} (h : c ∈ pyStrip l) : c ∈ l := by
  simp only [pyStrip, rstrip, lstrip] at h
  rw [List.mem_reverse] at h
  have h1 := (List.dropWhile_sublist isSp).mem h
  rw [List.mem_reverse] at h1
  exact (List.dropWhile_sublist isSp).mem h1

theorem semi_not_mem_first {q : List Char} :
    ';' ∉ pyStrip (q.takeWhile (fun c => c != ';')) := by
  intro h
  have h1 := mem_pyStrip h
  have h2 := List.mem_takeWhile_imp h1
  simp at h2

/-- When the separator occurs and the stripped text before the first
separator is non-empty, `takeFirstStmt` keeps exactly that text with one
appended separator. -/
theorem takeFirstStmt_of_nonempty {q : List Char} (h1 : ';' ∈ q)
    (h2 : pyStrip (q.takeWhile (fun c => c != ';')) ≠ []) :
    takeFirstStmt q = pyStrip (q.takeWhile (fun c => c != ';')) ++ [';'] := by
  have hc : q.contains ';' = true := by
    rw [List.contains_eq_any_beq, List.any_eq_true]
    exact ⟨';', h1, by simp⟩
  have he : (pyStrip (q.takeWhile (fun c => c != ';'))).isEmpty = false :=
    List.isEmpty_eq_false.mpr h2
  simp [takeFirstStmt, hc, he, h1]

/-- Claim C1, counterexample: the raw input `"; DROP TABLE x; --"` contains
the separator, yet `sanitize_sql` returns it unchanged — with two separators
and not ending in one — because the text before the first separator is blank
and the `if first:` guard then skips the truncation. -/
theorem C1_counterexample :
    (';' ∈ "; DROP TABLE x; --".toList) ∧
      sanitize_sql "; DROP TABLE x; --" = "; DROP TABLE x; --" ∧
      (sanitize_sql "; DROP TABLE x; --").toList.count ';' = 2 ∧
      (sanitize_sql "; DROP TABLE x; --").toList.getLast? ≠ some ';' :=
  ⟨by decide, by decide, by decide, by decide⟩

/-- Claim C1, amended: when the separator occurs in the normalized text (the
stage just before truncation) and the stripped text before the first
separator is non-empty, the sanitized output contains exactly one `;`, as
its last character. -/
theorem C1_sanitize_single_statement (s : String)
    (h1 : ';' ∈ preStmt s.toList)
    (h2 : pyStrip ((preStmt s.toList).takeWhile (fun c => c != ';')) ≠ []) :
    (sanitize_sql s).toList.count ';' = 1 ∧
      (sanitize_sql s).toList.getLast? = some ';' := by
  have hq := takeFirstStmt_of_nonempty h1 h2
  have hnot : ';' ∉ pyStrip ((preStmt s.toList).takeWhile (fun c => c != ';')) :=
    semi_not_mem_first
  have heq : (sanitize_sql s).toList =
      rewriteCreator (pyStrip ((preStmt s.toList).takeWhile (fun c => c != ';')))
        ++ [';'] := by
    show sanitizeL s.toList = _
    unfold sanitizeL
    rw [hq, rewriteCreator_append_semi _ _ (Nat.le_refl _)]
  rw [heq]
  constructor
  · rw [List.count_append,
      List.count_eq_zero.mpr (rewriteCreator_semi_free _ _ (Nat.le_refl _) hnot)]
    decide
  · simp [List.getLast?_append]

/-- Claim C1, witness: the hypotheses of the amended claim hold for the raw
LLM output `"SELECT 1; SELECT 2"`, whose sanitization is `"SELECT 1;"`. -/
theorem C1_witness :
    (';' ∈ preStmt "SELECT 1; SELECT 2".toList) ∧
      (pyStrip ((preStmt "SELECT 1; SELECT 2".toList).takeWhile
        (fun c => c != ';')) ≠ []) ∧
      ((sanitize_sql "SELECT 1; SELECT 2").toList.count ';' = 1 ∧
        (sanitize_sql "SELECT 1; SELECT 2").toList.getLast? = some ';') :=
  ⟨by decide, by decide,
    C1_sanitize_single_statement "SELECT 1; SELECT 2" (by decide) (by decide)⟩

theorem head?_not_sp_lstrip (l : List Char) :
    ∀ c, (lstrip l).head? = some c → isSp c = false := by
  intro c hc
  have h := List.head?_dropWhile_not isSp l
  rw [show l.dropWhile isSp = lstrip l from rfl, hc] at h
  exact h

theorem lstrip_eq_self_of_head (l : List Char)
    (h : ∀ c, l.head? = some c → isSp c = false) : lstrip l = l := by
  cases l with
  | nil => rfl
  | cons c t => exact List.dropWhile_cons_of_neg (by simp [h c rfl])

theorem rstrip_eq_self_of_last (l : List Char)
    (h : ∀ c, l.getLast? = some c → isSp c = false) : rstrip l = l := by
  unfold rstrip
  have h1 : l.reverse.dropWhile isSp = l.reverse :=
    lstrip_eq_self_of_head l.reverse (by
      intro c hc
      rw [List.head?_reverse] at hc
      exact h c hc)
  rw [h1, List.reverse_reverse]

theorem last?_not_sp_rstrip (l : List Char) :
    ∀ c, (rstrip l).getLast? = some c → isSp c = false := by
  intro c hc
  unfold rstrip at hc
  rw [List.getLast?_reverse] at hc
  exact head?_not_sp_lstrip l.reverse c hc

theorem rstrip_decomp (l : List Char) :
    l = rstrip l ++ (l.reverse.takeWhile isSp).reverse := by
  conv_lhs => rw [← List.reverse_reverse l]
  conv_lhs => rw [← List.takeWhile_append_dropWhile isSp l.reverse]
  rw [List.reverse_append]
  rfl

theorem head?_of_rstrip {l : List Char} {c : Char}
    (h : (rstrip l).head? = some c) : l.head? = some c := by
  conv_lhs => rw [rstrip_decomp l]
  rw [List.head?_append, h]
  rfl

theorem pyStrip_head_not_sp (l : List Char) :
    ∀ c, (pyStrip l).head? = some c → isSp c = false := by
  intro c hc
  exact head?_not_sp_lstrip l c (head?_of_rstrip hc)

theorem pyStrip_last_not_sp (l : List Char) :
    ∀ c, (pyStrip l).getLast? = some c → isSp c = false :=
  last?_not_sp_rstrip (lstrip l)

theorem pyStrip_eq_self_of (l : List Char)
    (hh : ∀ c, l.head? = some c → isSp c = false)
    (hl : ∀ c, l.getLast? = some c → isSp c = false) : pyStrip l = l := by
  unfold pyStrip
  rw [show lstrip l = l from lstrip_eq_self_of_head l hh]
  exact rstrip_eq_self_of_last l hl

theorem pyStrip_idem (l : List Char) : pyStrip (pyStrip l) = pyStrip l :=
  pyStrip_eq_self_of _ (pyStrip_head_not_sp l) (pyStrip_last_not_sp l)

theorem lstrip_sublist (l : List Char) : List.Sublist (lstrip l) l :=
  List.dropWhile_sublist isSp

theorem rstrip_sublist (l : List Char) : List.Sublist (rstrip l) l := by
  have h : List.Sublist (rstrip l).reverse l.reverse := by
    unfold rstrip
    rw [List.reverse_reverse]
    exact List.dropWhile_sublist isSp
  exact (List.reverse_sublist).mp h

theorem lstrip_eq_self_of_pyStrip {l : List Char} (h : pyStrip l = l) :
    lstrip l = l := by
  have h1 : (pyStrip l).length ≤ (lstrip l).length :=
    (rstrip_sublist (lstrip l)).length_le
  have h2 : (lstrip l).length ≤ l.length := (lstrip_sublist l).length_le
  have h3 : (pyStrip l).length = l.length := by rw [h]
  exact (lstrip_sublist l).eq_of_length (by omega)

theorem rstrip_eq_self_of_pyStrip {l : List Char} (h : pyStrip l = l) :
    rstrip l = l := by
  have h1 := lstrip_eq_self_of_pyStrip h
  have : pyStrip l = rstrip l := by
    unfold pyStrip
    rw [h1]
  rw [← this, h]

theorem head_not_sp_of_pyStrip {l : List Char} (h : pyStrip l = l) :
    ∀ c, l.head? = some c → isSp c = false := by
  intro c hc
  rw [← h] at hc
  exact pyStrip_head_not_sp l c hc

theorem last_not_sp_of_pyStrip {l : List Char} (h : pyStrip l = l) :
    ∀ c, l.getLast? = some c → isSp c = false := by
  intro c hc
  rw [← h] at hc
  exact pyStrip_last_not_sp l c hc

theorem lstrip_append_of_ne_nil {u : List Char} {c : Char} (hu : lstrip u = u)
    (hne : u ≠ []) : lstrip (u ++ [c]) = u ++ [c] := by
  cases u with
  | nil => exact absurd rfl hne
  | cons a t =>
    have ha : isSp a = false := by
      have := head?_not_sp_lstrip (a :: t) a
      rw [hu] at this
      exact this rfl
    exact List.dropWhile_cons_of_neg (by simp [ha])

theorem rstrip_append_singleton {u : List Char} {c : Char} (hc : isSp c = false) :
    rstrip (u ++ [c]) = u ++ [c] := by
  unfold rstrip
  rw [List.reverse_append]
  simp only [List.reverse_cons, List.reverse_nil, List.nil_append, List.cons_append,
    List.nil_append]
  rw [List.dropWhile_cons_of_neg (by simp [hc])]
  simp

theorem pyStrip_append_of_stripped {u : List Char} {c : Char}
    (hu : pyStrip u = u) (hne : u ≠ []) (hc : isSp c = false) :
    pyStrip (u ++ [c]) = u ++ [c] := by
  unfold pyStrip
  rw [lstrip_append_of_ne_nil (lstrip_eq_self_of_pyStrip hu) hne]
  exact rstrip_append_singleton hc

theorem repl_ne_nil (val : List Char) :
    (if uuidMatchPy val then replKeep val else replText val) ≠ [] := by
  split <;> simp [replKeep, replText]

theorem repl_head (val : List Char) :
    (if uuidMatchPy val then replKeep val else replText val).head? = some 'c' := by
  split <;> rfl

theorem repl_last (val : List Char) :
    (if uuidMatchPy val then replKeep val else replText val).getLast? = some '\'' := by
  split
  · show (replKeep val).getLast? = some '\''
    unfold replKeep
    rw [List.getLast?_append_of_ne_nil _ (show (['\''] : List Char) ≠ [] by simp)]
    rfl
  · show (replText val).getLast? = some '\''
    unfold replText
    rw [List.getLast?_append_of_ne_nil _ (show (['\''] : List Char) ≠ [] by simp)]
    rfl

theorem rewriteCreator_ne_nil {l : List Char} (h : l ≠ []) :
    rewriteCreator l ≠ [] := by
  cases hmc : matchCreator l with
  | some p =>
    obtain ⟨val, rest⟩ := p
    rw [rewriteCreator_some hmc]
    have := repl_ne_nil val
    simp [this]
  | none =>
    cases l with
    | nil => exact absurd rfl h
    | cons c t =>
      rw [rewriteCreator_none hmc]
      simp

theorem getLast?_mid (A : List Char) (b : Char) {C : List Char} (hC : C ≠ []) :
    (A ++ b :: C).getLast? = C.getLast? := by
  rw [show b :: C = [b] ++ C from rfl, ← List.append_assoc]
  exact List.getLast?_append_of_ne_nil _ hC

theorem rewriteCreator_head_not_sp {l : List Char}
    (hh : ∀ c, l.head? = some c → isSp c = false) :
    ∀ c, (rewriteCreator l).head? = some c → isSp c = false := by
  intro c hc
  cases hmc : matchCreator l with
  | some p =>
    obtain ⟨val, rest⟩ := p
    rw [rewriteCreator_some hmc, List.head?_append, repl_head] at hc
    simp only [Option.or_some] at hc
    have : c = 'c' := by
      cases hc
      rfl
    subst this
    decide
  | none =>
    cases l with
    | nil => rw [rewriteCreator_nil] at hc; exact absurd hc (by simp)
    | cons a t =>
      rw [rewriteCreator_none hmc] at hc
      simp only [List.head?_cons, Option.some.injEq] at hc
      subst hc
      exact hh a rfl

theorem rewriteCreator_last_not_sp : ∀ (n : Nat) (l : List Char), l.length ≤ n →
    (∀ c, l.getLast? = some c → isSp c = false) →
    ∀ c, (rewriteCreator l).getLast? = some c → isSp c = false := by
  intro n
  induction n with
  | zero =>
    intro l hn _ c hc
    have : l = [] := List.length_eq_zero.mp (Nat.le_zero.mp hn)
    subst this
    rw [rewriteCreator_nil] at hc
    exact absurd hc (by simp)
  | succ k ih =>
    intro l hn hl c hc
    cases hmc : matchCreator l with
    | some p =>
      obtain ⟨val, rest⟩ := p
      have hlt := matchCreator_rest_length hmc
      rw [rewriteCreator_some hmc] at hc
      cases hrest : rest with
      | nil =>
        subst hrest
        rw [rewriteCreator_nil, List.append_nil, repl_last] at hc
        have : c = '\'' := by
          cases hc
          rfl
        subst this
        decide
      | cons r0 r1 =>
        subst hrest
        have hne : rewriteCreator (r0 :: r1) ≠ [] := rewriteCreator_ne_nil (by simp)
        rw [List.getLast?_append] at hc
        cases hg : (rewriteCreator (r0 :: r1)).getLast? with
        | none =>
          exact absurd (List.getLast?_eq_none_iff.mp hg) hne
        | some y =>
          rw [hg] at hc
          simp only [Option.or_some] at hc
          obtain ⟨cs, w1, w2, hdec, -, -, -, -, -⟩ := matchCreator_dest hmc
          have hlast : l.getLast? = (r0 :: r1).getLast? := by
            rw [hdec]
            rw [List.getLast?_append_of_ne_nil _ (by simp)]
            rw [getLast?_mid w1 '=' (by simp)]
            rw [getLast?_mid w2 '\'' (by simp)]
            exact getLast?_mid val '\'' (by simp)
          have hl' : ∀ c', (r0 :: r1).getLast? = some c' → isSp c' = false := by
            intro c' hc'
            exact hl c' (by rw [hlast, hc'])
          have := ih (r0 :: r1) (by omega) hl' c (by rw [hg, ← hc])
          exact this
    | none =>
      cases l with
      | nil =>
        rw [rewriteCreator_nil] at hc
        exact absurd hc (by simp)
      | cons a t =>
        rw [rewriteCreator_none hmc] at hc
        cases t with
        | nil =>
          rw [rewriteCreator_nil] at hc
          simp only [List.getLast?_singleton, Option.some.injEq] at hc
          subst hc
          exact hl a rfl
        | cons b t' =>
          have hne : rewriteCreator (b :: t') ≠ [] := rewriteCreator_ne_nil (by simp)
          rw [show a :: rewriteCreator (b :: t') = [a] ++ rewriteCreator (b :: t')
            from rfl, List.getLast?_append_of_ne_nil _ hne] at hc
          have hl' : ∀ c', (b :: t').getLast? = some c' → isSp c' = false := by
            intro c' hc'
            apply hl
            rw [show a :: b :: t' = [a] ++ b :: t' from rfl,
              List.getLast?_append_of_ne_nil _ (by simp)]
            exact hc'
          simp only [List.length_cons] at hn
          exact ih (b :: t') (by simp only [List.length_cons]; omega) hl' c hc

theorem lowerChar_ne_c_of_sp {c : Char} (h : isSp c = true) : lowerChar c ≠ 'c' := by
  simp only [isSp, Bool.or_eq_true, decide_eq_true_eq] at h
  rcases h with ((((h | h) | h) | h) | h) | h <;> subst h <;> decide

theorem matchCreator_none_of_head {c : Char} (l : List Char)
    (h : lowerChar c ≠ 'c') : matchCreator (c :: l) = none := by
  have he : eatCI creatorPat (c :: l) = none := by
    simp [creatorPat, eatCI, h]
  unfold matchCreator
  rw [he]

theorem rewriteCreator_sp_prefix : ∀ (w r : List Char), (∀ c ∈ w, isSp c = true) →
    rewriteCreator (w ++ ';' :: r) = w ++ ';' :: rewriteCreator r := by
  intro w
  induction w with
  | nil =>
    intro r _
    simp only [List.nil_append]
    exact rewriteCreator_none (matchCreator_none_of_head _ (by decide))
  | cons c w' ih =>
    intro r hw
    rw [List.cons_append,
      rewriteCreator_none (matchCreator_none_of_head _
        (lowerChar_ne_c_of_sp (hw c (by simp)))),
      ih r (fun a ha => hw a (by simp [ha]))]
    rfl

theorem pyStrip_nil_of_all_sp {w : List Char} (h : ∀ c ∈ w, isSp c = true) :
    pyStrip w = [] := by
  unfold pyStrip lstrip
  rw [List.dropWhile_eq_nil_iff.mpr h]
  rfl

theorem pyStrip_eq_nil_imp {x : List Char} (h : pyStrip x = []) :
    ∀ c ∈ x, isSp c = true := by
  have hl : lstrip x = [] := by
    cases hx : lstrip x with
    | nil => rfl
    | cons a t =>
      exfalso
      have ha : isSp a = false := by
        have := head?_not_sp_lstrip x a
        rw [hx] at this
        exact this rfl
      unfold pyStrip at h
      rw [hx] at h
      unfold rstrip at h
      have := congrArg List.reverse h
      rw [List.reverse_reverse] at this
      simp only [List.reverse_nil] at this
      have hmem : a ∈ (a :: t).reverse.dropWhile isSp := by
        rw [List.dropWhile_eq_nil_iff] at this
        by_contra hcon
        have := this a (by simp)
        rw [ha] at this
        exact Bool.false_ne_true this
      rw [this] at hmem
      exact absurd hmem (by simp)
  intro c hc
  have hx2 : x = x.takeWhile isSp := by
    conv_lhs => rw [← List.takeWhile_append_dropWhile isSp x]
    rw [show x.dropWhile isSp = lstrip x from rfl, hl, List.append_nil]
  rw [hx2] at hc
  exact List.mem_takeWhile_imp hc

theorem sp_ne_semi {c : Char} (h : isSp c = true) : (c != ';') = true := by
  simp only [isSp, Bool.or_eq_true, decide_eq_true_eq] at h
  rcases h with ((((h | h) | h) | h) | h) | h <;> subst h <;> decide

theorem takeFirstStmt_of_not_mem {q : List Char} (h : ';' ∉ q) :
    takeFirstStmt q = q := by
  have hc : q.contains ';' = false := by
    rw [List.contains_eq_any_beq]
    rw [List.any_eq_false]
    intro x hx
    intro hbeq
    exact h (by rw [show x = ';' from (beq_iff_eq.mp hbeq).symm] at hx; exact hx)
  unfold takeFirstStmt
  rw [hc]
  rfl

theorem takeFirstStmt_of_empty_first {q : List Char}
    (h : pyStrip (q.takeWhile (fun c => c != ';')) = []) :
    takeFirstStmt q = q := by
  unfold takeFirstStmt
  rw [h]
  simp

theorem takeFirstStmt_keep {u : List Char} (hu : ';' ∉ u)
    (hstrip : pyStrip u = u) (hne : u ≠ []) :
    takeFirstStmt (u ++ [';']) = u ++ [';'] := by
  have hmem : ';' ∈ u ++ [';'] := by simp
  have htw : (u ++ [';']).takeWhile (fun c => c != ';') = u := by
    rw [List.takeWhile_append_of_pos (by
      intro a ha
      simp only [bne_iff_ne, ne_eq]
      intro hcon
      exact hu (hcon ▸ ha))]
    rw [List.takeWhile_cons_of_neg (by decide)]
    simp
  have hfs : pyStrip ((u ++ [';']).takeWhile (fun c => c != ';')) = u := by
    rw [htw, hstrip]
  rw [takeFirstStmt_of_nonempty hmem (by rw [hfs]; exact hne), hfs]

theorem rewriteCreator_pyStrip {l : List Char} (h : pyStrip l = l) :
    pyStrip (rewriteCreator l) = rewriteCreator l :=
  pyStrip_eq_self_of _
    (rewriteCreator_head_not_sp (head_not_sp_of_pyStrip h))
    (rewriteCreator_last_not_sp l.length l (Nat.le_refl _) (last_not_sp_of_pyStrip h))

theorem mem_of_contains_semi {q : List Char} (hc : q.contains ';' = true) :
    ';' ∈ q := by
  rw [List.contains_eq_any_beq, List.any_eq_true] at hc
  obtain ⟨x, hx, hbeq⟩ := hc
  rw [show x = ';' from (beq_iff_eq.mp hbeq).symm] at hx
  exact hx

theorem takeFirstStmt_pyStrip {q : List Char} (hq : pyStrip q = q) :
    pyStrip (takeFirstStmt q) = takeFirstStmt q := by
  by_cases hc : q.contains ';' = true
  · by_cases hne : pyStrip (q.takeWhile (fun c => c != ';')) = []
    · rw [takeFirstStmt_of_empty_first hne, hq]
    · rw [takeFirstStmt_of_nonempty (mem_of_contains_semi hc) hne]
      exact pyStrip_append_of_stripped (pyStrip_idem _) hne (by decide)
  · unfold takeFirstStmt
    rw [if_neg hc, hq]

/-- The sanitizer's output carries no leading or trailing whitespace: the
final strip of step 5 is preserved by the truncation and by the creator
rewrite. -/
theorem sanitizeL_pyStrip (l : List Char) :
    pyStrip (sanitizeL l) = sanitizeL l := by
  unfold sanitizeL
  exact rewriteCreator_pyStrip (takeFirstStmt_pyStrip (pyStrip_idem _))

/-- The sanitizer's output is a fixed point of the first-statement
truncation: either it carries no separator, or it is blank up to the first
separator, or it is a non-blank statement with a single final separator. -/
theorem takeFirstStmt_sanitizeL (l : List Char) :
    takeFirstStmt (sanitizeL l) = sanitizeL l := by
  unfold sanitizeL
  by_cases hmem : ';' ∈ preStmt l
  · by_cases hne : pyStrip ((preStmt l).takeWhile (fun c => c != ';')) = []
    · rw [takeFirstStmt_of_empty_first hne]
      obtain ⟨w, r, hw, hdec⟩ : ∃ w r, (∀ c ∈ w, isSp c = true) ∧
          preStmt l = w ++ ';' :: r := by
        have hall : ∀ c ∈ (preStmt l).takeWhile (fun c => c != ';'), isSp c = true :=
          pyStrip_eq_nil_imp hne
        cases hd : (preStmt l).dropWhile (fun c => c != ';') with
        | nil =>
          exfalso
          have hx : preStmt l = (preStmt l).takeWhile (fun c => c != ';') := by
            conv_lhs => rw [← List.takeWhile_append_dropWhile
              (fun c => c != ';') (preStmt l)]
            rw [hd, List.append_nil]
          rw [hx] at hmem
          have := List.mem_takeWhile_imp hmem
          simp at this
        | cons d r =>
          have hdq : d = ';' := by
            have h0 := List.head?_dropWhile_not (fun c => c != ';') (preStmt l)
            rw [hd] at h0
            simp only [List.head?_cons] at h0
            simpa using h0
          subst hdq
          refine ⟨(preStmt l).takeWhile (fun c => c != ';'), r, hall, ?_⟩
          conv_lhs => rw [← List.takeWhile_append_dropWhile
            (fun c => c != ';') (preStmt l)]
          rw [hd]
      rw [hdec, rewriteCreator_sp_prefix w r hw]
      apply takeFirstStmt_of_empty_first
      rw [List.takeWhile_append_of_pos (fun a ha => sp_ne_semi (hw a ha))]
      rw [List.takeWhile_cons_of_neg (by decide)]
      rw [List.append_nil]
      exact pyStrip_nil_of_all_sp hw
    · rw [takeFirstStmt_of_nonempty hmem hne,
        rewriteCreator_append_semi _ _ (Nat.le_refl _)]
      exact takeFirstStmt_keep
        (rewriteCreator_semi_free _ _ (Nat.le_refl _) semi_not_mem_first)
        (rewriteCreator_pyStrip (pyStrip_idem _))
        (rewriteCreator_ne_nil hne)
  · rw [takeFirstStmt_of_not_mem hmem]
    exact takeFirstStmt_of_not_mem
      (rewriteCreator_semi_free _ _ (Nat.le_refl _) hmem)

theorem toList_mk (l : List Char) : (String.mk l).toList = l := rfl

theorem unfenceLead_of_no_backtick {l : List Char} (h : '`' ∉ l) :
    unfenceLead l = l := by
  unfold unfenceLead
  split
  · exact absurd (by simp : '`' ∈ _) h
  · rfl

theorem unfenceTail_of_no_backtick {l : List Char} (h : '`' ∉ l) :
    unfenceTail l = l := by
  unfold unfenceTail
  split
  · rename_i r heq
    exfalso
    apply h
    rw [← List.mem_reverse, heq]
    simp
  · rfl

theorem unbacktick_of_no_backtick {l : List Char} (h : '`' ∉ l) :
    unbacktick l = l := by
  have hh : l.head? ≠ some '`' := by
    intro hcon
    cases l with
    | nil => exact absurd hcon (by simp)
    | cons a t =>
      simp only [List.head?_cons, Option.some.injEq] at hcon
      exact h (hcon ▸ List.mem_cons_self a t)
  unfold unbacktick
  rw [if_neg (by simp [hh])]

/-- Claim C2, amended: sanitization is idempotent on every input whose
sanitized output contains no backtick, carries no leading `SQL:`/`Ответ:`
label, and is a fixed point of the `creator_id` rewrite.  (Each of the three
conditions is needed: a repeated fence, a repeated label, or a quoted value
that itself spells a `creator_id` comparison makes a second pass strip
again.) -/
theorem C2_sanitize_idempotent (s : String)
    (hbt : '`' ∉ (sanitize_sql s).toList)
    (hlab : dropLabel (sanitize_sql s).toList = (sanitize_sql s).toList)
    (hrw : rewriteCreator (sanitize_sql s).toList = (sanitize_sql s).toList) :
    sanitize_sql (sanitize_sql s) = sanitize_sql s := by
  simp only [sanitize_sql, toList_mk] at hbt hlab hrw ⊢
  refine congrArg String.mk ?_
  have hstrip : pyStrip (sanitizeL s.toList) = sanitizeL s.toList :=
    sanitizeL_pyStrip s.toList
  have hpre : preStmt (sanitizeL s.toList) = sanitizeL s.toList := by
    unfold preStmt
    rw [hstrip, unfenceLead_of_no_backtick hbt, unfenceTail_of_no_backtick hbt,
      unbacktick_of_no_backtick hbt, hlab, hstrip]
  show rewriteCreator (takeFirstStmt (preStmt (sanitizeL s.toList)))
      = sanitizeL s.toList
  rw [hpre, takeFirstStmt_sanitizeL, hrw]

/-- Claim C2, counterexample: sanitization is not idempotent in general — a
raw output carrying one trailing fence after text and one free-standing
fence loses one fence per pass. -/
theorem C2_counterexample :
    sanitize_sql (sanitize_sql "abc``` ```") ≠ sanitize_sql "abc``` ```" ∧
      sanitize_sql "abc``` ```" = "abc```" ∧
      sanitize_sql (sanitize_sql "abc``` ```") = "abc" :=
  ⟨by decide, by decide, by decide⟩

/-- Claim C2, witness: the amended idempotence applies to the sanitized form
of a clean generated statement. -/
theorem C2_witness :
    ('`' ∉ (sanitize_sql "SELECT COUNT(*) FROM videos;").toList) ∧
      (dropLabel (sanitize_sql "SELECT COUNT(*) FROM videos;").toList
        = (sanitize_sql "SELECT COUNT(*) FROM videos;").toList) ∧
      (rewriteCreator (sanitize_sql "SELECT COUNT(*) FROM videos;").toList
        = (sanitize_sql "SELECT COUNT(*) FROM videos;").toList) ∧
      sanitize_sql (sanitize_sql "SELECT COUNT(*) FROM videos;")
        = sanitize_sql "SELECT COUNT(*) FROM videos;" :=
  ⟨by decide, by decide, by decide,
    C2_sanitize_idempotent "SELECT COUNT(*) FROM videos;"
      (by decide) (by decide) (by decide)⟩

/-- Construction for the `creator_id` matcher: any string of the pattern's
shape — the literal case-insensitively, whitespace, `=`, whitespace, and a
non-empty quote-free value in single quotes — matches, capturing the value. -/
theorem matchCreator_build (cs w1 w2 val rest : List Char)
    (hcs : cs.map lowerChar = creatorPat)
    (hw1 : ∀ c ∈ w1, isSp c = true) (hw2 : ∀ c ∈ w2, isSp c = true)
    (hval : val ≠ []) (hq : ∀ c ∈ val, c ≠ '\'') :
    matchCreator (cs ++ (w1 ++ '=' :: (w2 ++ '\'' :: (val ++ '\'' :: rest))))
      = some (val, rest) := by
  have h1 := eatCI_build cs creatorPat
    (w1 ++ '=' :: (w2 ++ '\'' :: (val ++ '\'' :: rest))) hcs
  have h2 : (w1 ++ '=' :: (w2 ++ '\'' :: (val ++ '\'' :: rest))).dropWhile isSp
      = '=' :: (w2 ++ '\'' :: (val ++ '\'' :: rest)) := by
    rw [List.dropWhile_append_of_pos hw1]
    exact List.dropWhile_cons_of_neg (by decide)
  have h3 : (w2 ++ '\'' :: (val ++ '\'' :: rest)).dropWhile isSp
      = '\'' :: (val ++ '\'' :: rest) := by
    rw [List.dropWhile_append_of_pos hw2]
    exact List.dropWhile_cons_of_neg (by decide)
  have h4 : (val ++ '\'' :: rest).takeWhile (fun c => c != '\'') = val := by
    rw [List.takeWhile_append_of_pos (by
      intro a ha
      simpa using hq a ha)]
    rw [List.takeWhile_cons_of_neg (by decide)]
    simp
  have h5 : (val ++ '\'' :: rest).drop val.length = '\'' :: rest :=
    List.drop_left val _
  unfold matchCreator
  rw [h1]
  simp only [h2, h3, h4, h5, if_pos rfl, List.isEmpty_eq_false.mpr hval]
  simp

/-- Claim C3, amended: a whole-string occurrence of the comparison pattern —
`creator_id` in any letter case, any whitespace around `=`, a non-empty
quote-free value in single quotes (with no `;`, which would trigger the
truncation step first) — is left as identifier equality exactly when the
value passes `UUID_RE`, i.e. is a canonical 8-4-4-4-12 UUID optionally
followed by one trailing newline; otherwise it is rewritten to the text
comparison `creator_id::text = '<value>'`. -/
theorem C3_creator_rewrite (cs w1 w2 val : List Char)
    (hcs : cs.map lowerChar = creatorPat)
    (hw1 : ∀ c ∈ w1, isSp c = true) (hw2 : ∀ c ∈ w2, isSp c = true)
    (hval : val ≠ []) (hq : ∀ c ∈ val, c ≠ '\'') (hsemi : ';' ∉ val) :
    sanitize_sql (String.mk (cs ++ (w1 ++ '=' :: (w2 ++ '\'' :: (val ++ ['\'']))))) =
      String.mk (if uuidMatchPy val then replKeep val else replText val) := by
  obtain ⟨c0, cs', rfl⟩ : ∃ c0 cs', cs = c0 :: cs' := by
    cases cs with
    | nil => exact absurd hcs (by simp [creatorPat])
    | cons a t => exact ⟨a, t, rfl⟩
  have hc0 : lowerChar c0 = 'c' := by
    simp only [List.map_cons, creatorPat, List.cons.injEq] at hcs
    exact hcs.1
  have hc0bt : c0 ≠ '`' := by
    intro hcon
    rw [hcon] at hc0
    exact absurd hc0 (by decide)
  have hc0sp : isSp c0 = false := by
    by_contra hcon
    exact lowerChar_ne_c_of_sp (by simpa using hcon) hc0
  have hhead : ((c0 :: cs') ++ (w1 ++ '=' :: (w2 ++ '\'' :: (val ++ ['\''])))).head?
      = some c0 := by
    simp
  have hlast : ((c0 :: cs') ++ (w1 ++ '=' :: (w2 ++ '\'' :: (val ++ ['\''])))).getLast?
      = some '\'' := by
    rw [List.getLast?_append_of_ne_nil _ (by simp),
      getLast?_mid w1 '=' (by simp), getLast?_mid w2 '\'' (by simp),
      List.getLast?_append_of_ne_nil _ (by simp)]
    rfl
  have hstrip : pyStrip ((c0 :: cs') ++ (w1 ++ '=' :: (w2 ++ '\'' :: (val ++ ['\'']))))
      = (c0 :: cs') ++ (w1 ++ '=' :: (w2 ++ '\'' :: (val ++ ['\'']))) := by
    apply pyStrip_eq_self_of
    · intro c hc
      rw [hhead] at hc
      cases hc
      exact hc0sp
    · intro c hc
      rw [hlast] at hc
      cases hc
      decide
  have hlead : unfenceLead ((c0 :: cs') ++ (w1 ++ '=' :: (w2 ++ '\'' :: (val ++ ['\'']))))
      = (c0 :: cs') ++ (w1 ++ '=' :: (w2 ++ '\'' :: (val ++ ['\'']))) := by
    unfold unfenceLead
    split
    · rename_i r heq
      exfalso
      rw [List.cons_append] at heq
      exact hc0bt (by injection heq)
    · rfl
  have htail : unfenceTail ((c0 :: cs') ++ (w1 ++ '=' :: (w2 ++ '\'' :: (val ++ ['\'']))))
      = (c0 :: cs') ++ (w1 ++ '=' :: (w2 ++ '\'' :: (val ++ ['\'']))) := by
    unfold unfenceTail
    split
    · rename_i r heq
      exfalso
      have h0 : ((c0 :: cs') ++ (w1 ++ '=' :: (w2 ++ '\'' :: (val ++ ['\''])))).getLast?
          = some '`' := by
        rw [← List.head?_reverse, heq]
        rfl
      rw [hlast] at h0
      exact absurd (by injection h0) (by decide)
    · rfl
  have hbt : unbacktick ((c0 :: cs') ++ (w1 ++ '=' :: (w2 ++ '\'' :: (val ++ ['\'']))))
      = (c0 :: cs') ++ (w1 ++ '=' :: (w2 ++ '\'' :: (val ++ ['\'']))) := by
    unfold unbacktick
    rw [if_neg]
    simp only [Bool.and_eq_true, decide_eq_true_eq, not_and]
    intro hcon
    rw [hhead] at hcon
    exact absurd (by injection hcon) hc0bt
  have hlab : dropLabel ((c0 :: cs') ++ (w1 ++ '=' :: (w2 ++ '\'' :: (val ++ ['\'']))))
      = (c0 :: cs') ++ (w1 ++ '=' :: (w2 ++ '\'' :: (val ++ ['\'']))) := by
    have e1 : tryLabel sqlLabel ((c0 :: cs') ++ (w1 ++ '=' :: (w2 ++ '\'' :: (val ++ ['\'']))))
        = none := by
      unfold tryLabel
      rw [List.cons_append]
      simp [sqlLabel, eatCI, hc0]
    have e2 : tryLabel otvetLabel ((c0 :: cs') ++ (w1 ++ '=' :: (w2 ++ '\'' :: (val ++ ['\'']))))
        = none := by
      unfold tryLabel
      rw [List.cons_append]
      simp [otvetLabel, eatCI, hc0]
    unfold dropLabel
    rw [e1, e2]
  have hnosemi : ';' ∉ (c0 :: cs') ++ (w1 ++ '=' :: (w2 ++ '\'' :: (val ++ ['\'']))) := by
    intro h
    simp only [List.cons_append, List.mem_append, List.mem_cons, List.mem_singleton,
      List.not_mem_nil, or_false] at h
    have hcs2 : List.map lowerChar cs' = ['r', 'e', 'a', 't', 'o', 'r', '_', 'i', 'd'] := by
      simp only [List.map_cons, creatorPat, List.cons.injEq] at hcs
      exact hcs.2
    rcases h with h | h | h | h | h | h | h | h
    · rw [← h] at hc0
      exact absurd hc0 (by decide)
    · have hm := List.mem_map_of_mem lowerChar h
      rw [hcs2] at hm
      exact absurd hm (by decide)
    · exact absurd (hw1 ';' h) (by decide)
    · exact absurd h (by decide)
    · exact absurd (hw2 ';' h) (by decide)
    · exact absurd h (by decide)
    · exact hsemi h
    · exact absurd h (by decide)
  have hmc : matchCreator ((c0 :: cs') ++ (w1 ++ '=' :: (w2 ++ '\'' :: (val ++ ['\'']))))
      = some (val, []) := by
    have := matchCreator_build (c0 :: cs') w1 w2 val [] hcs hw1 hw2 hval hq
    simpa using this
  simp only [sanitize_sql, toList_mk]
  refine congrArg String.mk ?_
  unfold sanitizeL preStmt
  rw [hstrip, hlead, htail, hbt, hlab, hstrip, takeFirstStmt_of_not_mem hnosemi,
    rewriteCreator_some hmc, rewriteCreator_nil, List.append_nil]

/-- Claim C3, counterexample: a value that is a canonical UUID followed by a
single trailing newline is not in canonical UUID form, yet `sanitize_sql`
leaves the comparison as identifier equality instead of rewriting it to the
text comparison, because Python's `$` anchor in `UUID_RE` also matches just
before a final newline. -/
theorem C3_counterexample :
    uuidCanonical "00000000-0000-0000-0000-000000000000\n".toList = false ∧
      sanitize_sql "creator_id = '00000000-0000-0000-0000-000000000000\n'"
        = "creator_id = '00000000-0000-0000-0000-000000000000\n'" ∧
      sanitize_sql "creator_id = '00000000-0000-0000-0000-000000000000\n'"
        ≠ "creator_id::text = '00000000-0000-0000-0000-000000000000\n'" :=
  ⟨by decide, by decide, by decide⟩

/-- Claim C3, witness: the amended rewrite theorem applied to
`CREATOR_ID ='42'` — upper-case identifier, asymmetric whitespace, non-UUID
value — yields the text comparison. -/
theorem C3_witness :
    ("CREATOR_ID".toList.map lowerChar = creatorPat) ∧
      (∀ c ∈ [' '], isSp c = true) ∧ (∀ c ∈ ([] : List Char), isSp c = true) ∧
      ("42".toList ≠ []) ∧ (∀ c ∈ "42".toList, c ≠ '\'') ∧
      (';' ∉ "42".toList) ∧
      sanitize_sql (String.mk ("CREATOR_ID".toList ++
          ([' '] ++ '=' :: (([] : List Char) ++ '\'' :: ("42".toList ++ ['\''])))))
        = String.mk (if uuidMatchPy "42".toList then replKeep "42".toList
            else replText "42".toList) :=
  ⟨by decide, by decide, by decide, by decide, by decide, by decide,
    C3_creator_rewrite "CREATOR_ID".toList [' '] [] "42".toList
      (by decide) (by decide) (by decide) (by decide) (by decide) (by decide)⟩

theorem dropWhile_append_cons (p : Char → Bool) (a : List Char) (c : Char)
    (b : List Char) (hc : p c = false) :
    (a ++ c :: b).dropWhile p = a.dropWhile p ++ c :: b := by
  rw [List.dropWhile_append]
  split
  · rename_i he
    have ha : a.dropWhile p = [] := by
      cases hu : a.dropWhile p with
      | nil => rfl
      | cons x y => rw [hu] at he; simp at he
    rw [ha, List.dropWhile_cons_of_neg (by simp [hc])]
    rfl
  · rfl

theorem unfenceTail_of_reverse {l r : List Char}
    (h : l.reverse = '`' :: '`' :: '`' :: r) :
    unfenceTail l = (r.dropWhile isSp).reverse := by
  unfold unfenceTail
  rw [h]
  rfl

theorem unfenceLead_cons3 (r : List Char) :
    unfenceLead ('`' :: '`' :: '`' :: r) =
      match eatCI sqlTag r with
      | some r2 => r2.dropWhile isSp
      | none => r.dropWhile isSp := rfl

/-- Claim C5, amended: for a raw output that is exactly the inner text
wrapped in a leading (optionally `sql`-tagged) fence and a trailing fence,
sanitization returns the inner text stripped of surrounding whitespace —
provided the later normalization steps leave that trimmed inner text alone:
it is not wrapped in single backticks, has no leading `SQL:`/`Ответ:` label,
is a fixed point of the statement truncation and of the `creator_id`
rewrite, and (for a bare fence) does not begin with the letters `sql`. -/
theorem C5_fence_strip (inner : String) (tagged : Bool)
    (h0 : tagged = false → eatCI sqlTag (inner.toList ++ fence3) = none)
    (h1 : unbacktick (pyStrip inner.toList) = pyStrip inner.toList)
    (h2 : dropLabel (pyStrip inner.toList) = pyStrip inner.toList)
    (h3 : takeFirstStmt (pyStrip inner.toList) = pyStrip inner.toList)
    (h4 : rewriteCreator (pyStrip inner.toList) = pyStrip inner.toList) :
    sanitize_sql (String.mk (fence3 ++
        ((if tagged then sqlTag else []) ++ (inner.toList ++ fence3))))
      = String.mk (pyStrip inner.toList) := by
  have hne : (if tagged then sqlTag else []) ++ (inner.toList ++ fence3) ≠ [] := by
    simp [fence3]
  have hlastraw : (fence3 ++
      ((if tagged then sqlTag else []) ++ (inner.toList ++ fence3))).getLast?
      = some '`' := by
    rw [List.getLast?_append_of_ne_nil _ hne,
      List.getLast?_append_of_ne_nil _ (by simp [fence3]),
      List.getLast?_append_of_ne_nil _ (by simp [fence3])]
    rfl
  have hstrip : pyStrip (fence3 ++
      ((if tagged then sqlTag else []) ++ (inner.toList ++ fence3)))
      = fence3 ++ ((if tagged then sqlTag else []) ++ (inner.toList ++ fence3)) := by
    apply pyStrip_eq_self_of
    · intro c hc
      rw [show fence3 ++ ((if tagged then sqlTag else []) ++ (inner.toList ++ fence3))
        = '`' :: ('`' :: '`' :: ((if tagged then sqlTag else []) ++ (inner.toList ++ fence3)))
        from rfl] at hc
      simp only [List.head?_cons, Option.some.injEq] at hc
      subst hc
      decide
    · intro c hc
      rw [hlastraw] at hc
      cases hc
      decide
  have hlead : unfenceLead (fence3 ++
      ((if tagged then sqlTag else []) ++ (inner.toList ++ fence3)))
      = (inner.toList ++ fence3).dropWhile isSp := by
    cases tagged with
    | true =>
      rw [if_pos rfl]
      rw [show fence3 ++ (sqlTag ++ (inner.toList ++ fence3))
        = '`' :: '`' :: '`' :: (sqlTag ++ (inner.toList ++ fence3)) from rfl]
      rw [unfenceLead_cons3]
      rw [eatCI_build sqlTag sqlTag (inner.toList ++ fence3) (by decide)]
    | false =>
      rw [if_neg (by simp), List.nil_append]
      rw [show fence3 ++ (inner.toList ++ fence3)
        = '`' :: '`' :: '`' :: (inner.toList ++ fence3) from rfl]
      rw [unfenceLead_cons3, h0 rfl]
  have htail : unfenceTail ((inner.toList).dropWhile isSp ++ fence3)
      = pyStrip inner.toList := by
    rw [unfenceTail_of_reverse (r := ((inner.toList).dropWhile isSp).reverse)
      (by rw [List.reverse_append]; rfl)]
    rfl
  have hdw : (inner.toList ++ fence3).dropWhile isSp
      = (inner.toList).dropWhile isSp ++ fence3 := by
    rw [show (fence3 : List Char) = '`' :: ['`', '`'] from rfl]
    exact dropWhile_append_cons isSp inner.toList '`' ['`', '`'] (by decide)
  simp only [sanitize_sql, toList_mk]
  refine congrArg String.mk ?_
  unfold sanitizeL preStmt
  rw [hstrip, hlead, hdw, htail, h1, h2, pyStrip_idem, h3, h4]

/-- Claim C5, counterexample: a fenced raw output whose inner text holds two
statements is not returned as the inner text — the truncation step also
fires, so the result is `"SELECT 1;"`, not `"SELECT 1; SELECT 2"`. -/
theorem C5_counterexample :
    sanitize_sql "```SELECT 1; SELECT 2```" = "SELECT 1;" ∧
      "SELECT 1;" ≠ "SELECT 1; SELECT 2" :=
  ⟨by decide, by decide⟩

/-- Claim C5, witness: a tagged fence around one clean statement is removed
and the trimmed inner text returned. -/
theorem C5_witness :
    ((true : Bool) = false →
      eatCI sqlTag ("SELECT COUNT(*) FROM videos;".toList ++ fence3) = none) ∧
      (unbacktick (pyStrip "SELECT COUNT(*) FROM videos;".toList)
        = pyStrip "SELECT COUNT(*) FROM videos;".toList) ∧
      (dropLabel (pyStrip "SELECT COUNT(*) FROM videos;".toList)
        = pyStrip "SELECT COUNT(*) FROM videos;".toList) ∧
      (takeFirstStmt (pyStrip "SELECT COUNT(*) FROM videos;".toList)
        = pyStrip "SELECT COUNT(*) FROM videos;".toList) ∧
      (rewriteCreator (pyStrip "SELECT COUNT(*) FROM videos;".toList)
        = pyStrip "SELECT COUNT(*) FROM videos;".toList) ∧
      sanitize_sql (String.mk (fence3 ++
          ((if (true : Bool) then sqlTag else []) ++
            ("SELECT COUNT(*) FROM videos;".toList ++ fence3))))
        = String.mk (pyStrip "SELECT COUNT(*) FROM videos;".toList) :=
  ⟨by decide, by decide, by decide, by decide, by decide,
    C5_fence_strip "SELECT COUNT(*) FROM videos;" true
      (by decide) (by decide) (by decide) (by decide) (by decide)⟩

/-- Claim C4, counterexample: the gigachat request carries no temperature
parameter and no output-length budget — the `Chat` payload is built from
`messages` alone — so the claim fails for that provider. -/
theorem C4_counterexample :
    (mkGigaChatPayload "Сколько всего видео есть в системе?").temperature = none ∧
      (mkGigaChatPayload "Сколько всего видео есть в системе?").max_tokens = none :=
  ⟨rfl, rfl⟩

/-- Claim C4, amended: the openai request is issued with `temperature=0.0`
(most deterministic) and `max_tokens=200` (bounded output); the gigachat
request sets neither parameter, leaving the provider's defaults. -/
theorem C4_request_parameters (st : Settings) (q : String) :
    (mkOpenAICall st q).temperature = some 0 ∧
      (mkOpenAICall st q).max_tokens = some 200 ∧
      (mkGigaChatPayload q).temperature = none ∧
      (mkGigaChatPayload q).max_tokens = none :=
  ⟨rfl, rfl, rfl, rfl⟩

theorem handle_ok (st : Settings) (oracle : LlmCall → Except String String)
    (db : String → Except String (Option Int)) (txt : Option String)
    (sql0 : String) (r : Option Int)
    (hq : String.mk (pyStrip (txt.getD "").toList) ≠ "")
    (hl : (query_to_sql st oracle (String.mk (pyStrip (txt.getD "").toList))).1
      = Except.ok sql0)
    (hdb : db (sanitize_sql sql0) = Except.ok r) :
    handle st oracle db txt =
      { reply := renderVal r,
        executed := some (sanitize_sql sql0),
        logged := none } := by
  unfold handle
  simp only [if_neg hq, hl, hdb]

/-- Claim C6: with a non-blank question and a successful pipeline, the
absence-of-result marker is rendered as the literal string `"0"` — never an
empty string or an error — and a scalar value is rendered as its string
form. -/
theorem C6_render_zero (st : Settings) (oracle : LlmCall → Except String String)
    (db : String → Except String (Option Int)) (txt : Option String)
    (sql0 : String)
    (hq : String.mk (pyStrip (txt.getD "").toList) ≠ "")
    (hl : (query_to_sql st oracle (String.mk (pyStrip (txt.getD "").toList))).1
      = Except.ok sql0) :
    (db (sanitize_sql sql0) = Except.ok none →
      (handle st oracle db txt).reply = "0") ∧
    (∀ v : Int, db (sanitize_sql sql0) = Except.ok (some v) →
      (handle st oracle db txt).reply = toString v) := by
  constructor
  · intro hdb
    rw [handle_ok st oracle db txt sql0 none hq hl hdb]
    rfl
  · intro v hdb
    rw [handle_ok st oracle db txt sql0 (some v) hq hl hdb]
    rfl

/-- Claim C6, witness: the example question with no snapshots on the date
renders the reply `"0"`, and a scalar 42 renders `"42"`. -/
theorem C6_witness :
    (String.mk (pyStrip ((some "На сколько просмотров в сумме выросли все видео 28 ноября 2025?").getD "").toList) ≠ "") ∧
      ((query_to_sql stOpenai okOracle (String.mk (pyStrip ((some "На сколько просмотров в сумме выросли все видео 28 ноября 2025?").getD "").toList))).1
        = Except.ok "SELECT COUNT(*) FROM videos;") ∧
      (handle stOpenai okOracle dbNone
        (some "На сколько просмотров в сумме выросли все видео 28 ноября 2025?")).reply = "0" :=
  ⟨by decide, by decide,
    (C6_render_zero stOpenai okOracle dbNone
      (some "На сколько просмотров в сумме выросли все видео 28 ноября 2025?")
      "SELECT COUNT(*) FROM videos;" (by decide) (by decide)).1 rfl⟩

/-- Claim C7: any failure inside the per-question pipeline — a translation
failure from the LLM layer or an execution failure from the database layer —
is caught at the single try/except boundary: the handler always returns (it
raises nothing to the transport layer), logs the original question with the
exception detail, and replies with the one fixed apology string, which does
not depend on the error. -/
theorem C7_failure_boundary (st : Settings) (oracle : LlmCall → Except String String)
    (db : String → Except String (Option Int)) (txt : Option String)
    (hq : String.mk (pyStrip (txt.getD "").toList) ≠ "") :
    (∀ e, (query_to_sql st oracle (String.mk (pyStrip (txt.getD "").toList))).1
        = Except.error e →
      handle st oracle db txt =
        { reply := apologyMsg,
          executed := none,
          logged := some (String.mk (pyStrip (txt.getD "").toList), e) }) ∧
    (∀ sql0 e, (query_to_sql st oracle (String.mk (pyStrip (txt.getD "").toList))).1
        = Except.ok sql0 →
      db (sanitize_sql sql0) = Except.error e →
      handle st oracle db txt =
        { reply := apologyMsg,
          executed := some (sanitize_sql sql0),
          logged := some (String.mk (pyStrip (txt.getD "").toList), e) }) := by
  constructor
  · intro e hl
    unfold handle
    simp only [if_neg hq, hl]
  · intro sql0 e hl hdb
    unfold handle
    simp only [if_neg hq, hl, hdb]

/-- Claim C7, witness: a failing LLM call yields the apology reply and a log
entry holding the question and the error; the error text never reaches the
reply. -/
theorem C7_witness :
    (String.mk (pyStrip ((some "Сколько всего видео есть в системе?").getD "").toList) ≠ "") ∧
      handle stOpenai errOracle dbVal (some "Сколько всего видео есть в системе?") =
        { reply := apologyMsg,
          executed := none,
          logged := some (String.mk (pyStrip ((some "Сколько всего видео есть в системе?").getD "").toList),
            "connection refused") } :=
  ⟨by decide,
    (C7_failure_boundary stOpenai errOracle dbVal
      (some "Сколько всего видео есть в системе?") (by decide)).1
      "connection refused" (by decide)⟩

/-- Claim C8: a provider selector that normalizes to neither supported value
makes `query_to_sql` fail fast with the `Unknown LLM provider` error naming
the configured selector, with an empty outbound-call trace (no provider call
and no retry). -/
theorem C8_unknown_provider (st : Settings) (oracle : LlmCall → Except String String)
    (q : String) (h1 : providerOf st ≠ "openai") (h2 : providerOf st ≠ "gigachat") :
    query_to_sql st oracle q =
      (Except.error ("Unknown LLM provider: " ++ st.llm_provider), []) := by
  unfold query_to_sql
  rw [if_neg h1, if_neg h2]

/-- Claim C8, witness: the selector `"claude"` is rejected without any
outbound call. -/
theorem C8_witness :
    (providerOf stBad ≠ "openai") ∧ (providerOf stBad ≠ "gigachat") ∧
      query_to_sql stBad okOracle "Сколько всего видео есть в системе?" =
        (Except.error ("Unknown LLM provider: " ++ stBad.llm_provider), []) :=
  ⟨by decide, by decide,
    C8_unknown_provider stBad okOracle "Сколько всего видео есть в системе?"
      (by decide) (by decide)⟩

/-- Claim C10: provider selection is case-insensitive and
whitespace-tolerant — when the selector's lowercased, stripped form is
`"openai"` or `"gigachat"`, `query_to_sql` makes exactly the one
corresponding provider call instead of raising the unknown-provider
error. -/
theorem C10_provider_normalization (st : Settings)
    (oracle : LlmCall → Except String String) (q : String) :
    (providerOf st = "openai" →
      (query_to_sql st oracle q).2 = [LlmCall.openaiCall (mkOpenAICall st q)]) ∧
    (providerOf st = "gigachat" →
      (query_to_sql st oracle q).2 = [LlmCall.gigaCall (mkGigaChatPayload q)]) := by
  constructor
  · intro h
    unfold query_to_sql
    rw [if_pos h]
    cases oracle (LlmCall.openaiCall (mkOpenAICall st q)) <;> rfl
  · intro h
    unfold query_to_sql
    rw [h]
    rw [if_neg (by decide), if_pos rfl]
    cases oracle (LlmCall.gigaCall (mkGigaChatPayload q)) <;> rfl

/-- Claim C10, witness: the padded mixed-case selector `"  GigaChat "`
dispatches to the gigachat provider. -/
theorem C10_witness :
    (providerOf stGiga = "gigachat") ∧
      (query_to_sql stGiga okOracle "Сколько всего видео есть в системе?").2
        = [LlmCall.gigaCall (mkGigaChatPayload "Сколько всего видео есть в системе?")] :=
  ⟨by decide,
    (C10_provider_normalization stGiga okOracle
      "Сколько всего видео есть в системе?").2 (by decide)⟩

/-- Claim C9: whatever completion the provider returns, the SQL handed to
the executor is the sanitizer applied twice to it — `query_to_sql` returns
`sanitize_sql raw` and the handler applies `sanitize_sql` again before
calling the executor — so the executed statement coincides with the
single-sanitization output exactly when sanitization is idempotent on that
completion. -/
theorem C9_double_sanitize (st : Settings) (oracle : LlmCall → Except String String)
    (db : String → Except String (Option Int)) (txt : Option String) (raw : String)
    (hq : String.mk (pyStrip (txt.getD "").toList) ≠ "")
    (hp : providerOf st = "openai" ∨ providerOf st = "gigachat")
    (ho : ∀ c, oracle c = Except.ok raw) :
    (handle st oracle db txt).executed = some (sanitize_sql (sanitize_sql raw)) ∧
      ((handle st oracle db txt).executed = some (sanitize_sql raw) ↔
        sanitize_sql (sanitize_sql raw) = sanitize_sql raw) := by
  have hl : (query_to_sql st oracle (String.mk (pyStrip (txt.getD "").toList))).1
      = Except.ok (sanitize_sql raw) := by
    unfold query_to_sql
    rcases hp with h | h
    · rw [if_pos h, ho]
    · rw [h, if_neg (by decide), if_pos rfl, ho]
  have h1 : (handle st oracle db txt).executed
      = some (sanitize_sql (sanitize_sql raw)) := by
    unfold handle
    simp only [if_neg hq, hl]
    cases hdb : db (sanitize_sql (sanitize_sql raw)) with
    | ok r => simp only [hdb]
    | error e => simp only [hdb]
  refine ⟨h1, ?_⟩
  rw [h1]
  exact Option.some_inj

/-- Claim C9, witness: with a clean completion the executed SQL is its
double sanitization, which here equals the single sanitization. -/
theorem C9_witness :
    (String.mk (pyStrip ((some "Сколько всего видео есть в системе?").getD "").toList) ≠ "") ∧
      (providerOf stOpenai = "openai") ∧
      (handle stOpenai okOracle dbVal (some "Сколько всего видео есть в системе?")).executed
        = some (sanitize_sql (sanitize_sql "SELECT COUNT(*) FROM videos;")) :=
  ⟨by decide, by decide,
    (C9_double_sanitize stOpenai okOracle dbVal
      (some "Сколько всего видео есть в системе?") "SELECT COUNT(*) FROM videos;"
      (by decide) (Or.inl (by decide)) (fun _ => rfl)).1⟩
